import Mathlib

/-!
Verification of the ChatLab format-sniffing and parsing pipeline.

The development shallowly embeds `electron/main/parser/sniffer.ts` (the
`FormatSniffer` class and its helpers) and `electron/main/parser/index.ts`
(`detectFormat`, `diagnoseFormat`, `parseFile`, `parseFileSync`,
`parseFileInfo`).  Files are modelled by their observable inputs: the
extension computed by `path.extname`, readability, the character content
(bytes are modelled as characters, so the 8 KiB head window is a prefix of
`HEAD_SIZE` content units), and the size reported by `fs.statSync`.
JavaScript regular expressions supplied by the format modules (which are
external to the sniffer) are modelled as opaque test functions; the regular
expressions that `matchRequiredFields` / `checkRequiredFieldsDetail` build
from a field name are modelled exactly, by a small matcher for the token
language those built patterns use (literals, `\s*`, `.*`, `.`).
-/

namespace ChatLab

/-- Head window size: the sniffer reads at most `8 * 1024` units from the
start of a file (`HEAD_SIZE` in sniffer.ts). -/
def HEAD_SIZE : Nat := 8 * 1024

/-- Whitespace class of the JavaScript regex escape `\s`, restricted to the
ASCII whitespace characters. -/
def isJsWs (c : Char) : Bool :=
  c = ' ' || c = '\t' || c = '\n' || c = '\r' || c = '\x0b' || c = '\x0c'

/-- Tokens of the restricted regex language that the patterns built by
`matchRequiredFields` use: literal characters, `\s*`, `.*` and `.`. -/
inductive RTok where
  | lit (c : Char)
  | wsStar
  | anyStar
  | anyChar
deriving Repr, DecidableEq

/-- Compile the characters of a built pattern string into tokens, the way
the JavaScript `RegExp` constructor reads them for this restricted
language. -/
def tokenize : List Char → List RTok
  | '\\' :: 's' :: '*' :: rest => RTok.wsStar :: tokenize rest
  | '.' :: '*' :: rest => RTok.anyStar :: tokenize rest
  | '.' :: rest => RTok.anyChar :: tokenize rest
  | c :: rest => RTok.lit c :: tokenize rest
  | [] => []

/-- Remainders reachable from `cs` by `\s*`: drop any number of leading
whitespace characters. -/
def wsSuffixes : List Char → List (List Char)
  | [] => [[]]
  | d :: cs => (d :: cs) :: (if isJsWs d then wsSuffixes cs else [])

/-- Remainders reachable from `cs` by `.*`: drop any number of leading
non-newline characters (`.` does not match a newline in JavaScript without
the `s` flag). -/
def nlSuffixes : List Char → List (List Char)
  | [] => [[]]
  | d :: cs => (d :: cs) :: (if d ≠ '\n' then nlSuffixes cs else [])

/-- Match a token list against a prefix of the given characters; a star
token branches over every remainder its closure can leave. -/
def matchToks : List RTok → List Char → Bool
  | [], _ => true
  | RTok.lit _ :: _, [] => false
  | RTok.lit c :: ts, d :: cs => c = d && matchToks ts cs
  | RTok.anyChar :: _, [] => false
  | RTok.anyChar :: ts, d :: cs => d ≠ '\n' && matchToks ts cs
  | RTok.wsStar :: ts, cs => (wsSuffixes cs).any (fun r => matchToks ts r)
  | RTok.anyStar :: ts, cs => (nlSuffixes cs).any (fun r => matchToks ts r)

/-- Semantics of `RegExp.prototype.test`: the token list matches at some
position of the subject string. -/
def regexTest (toks : List RTok) (cs : List Char) : Bool :=
  cs.tails.any (fun suffix => matchToks toks suffix)

/-- Model of `String.prototype.replace` with a one-character string pattern:
only the first occurrence is replaced. -/
def replaceFirstDot : List Char → List Char → List Char
  | [], _ => []
  | c :: rest, rep => if c = '.' then rep ++ rest else c :: replaceFirstDot rest rep

/-- Characters of the pattern the sniffer builds for a required field
`field`: the source text `"${field.replace('.', '"\\s*:\\s*.*"')}"\\s*:`. -/
def fieldPatternChars (field : String) : List Char :=
  ('"' :: replaceFirstDot field.data ("\"\\s*:\\s*.*\"".data)) ++ ("\"\\s*:".data)

/-- Model of `String.prototype.includes`: substring containment. -/
def jsIncludes (hay needle : List Char) : Bool :=
  hay.tails.any (fun t => needle.isPrefixOf t)

/-- Shared per-field test of `matchRequiredFields` and
`checkRequiredFieldsDetail`: the built pattern matches the head content, or
the head content contains `"field"` verbatim. -/
def fieldFound (headContent : List Char) (field : String) : Bool :=
  regexTest (tokenize (fieldPatternChars field)) headContent ||
    jsIncludes headContent (('"' :: field.data) ++ ['\"'])

/-- Embeds `matchRequiredFields`: every required field must be found. -/
def matchRequiredFields (headContent : List Char) (fields : List String) : Bool :=
  fields.all (fun field => fieldFound headContent field)

/-- Result record of `checkRequiredFieldsDetail`. -/
structure RequiredFieldsCheck where
  allMatch : Bool
  missing : List String
deriving Repr, DecidableEq

/-- Embeds `checkRequiredFieldsDetail`: collect the fields that are not
found, in order; `allMatch` holds when none is missing. -/
def checkRequiredFieldsDetail (headContent : List Char) (fields : List String) :
    RequiredFieldsCheck :=
  let missing := fields.filter (fun field => !(fieldFound headContent field))
  { allMatch := missing.length == 0, missing := missing }

/-- Opaque model of a JavaScript `RegExp` supplied by a format module: its
observable behaviour under `.test` on the head content. -/
abbrev Pattern : Type := List Char → Bool

/-- Signature block of a `FormatFeature` (types.ts is not part of the staged
sources; the fields are the ones sniffer.ts reads: `head`,
`requiredFields`, `fieldPatterns`, each optional). -/
structure Signatures where
  head : Option (List Pattern)
  requiredFields : Option (List String)
  fieldPatterns : Option (List (String × Pattern))

/-- Format feature as used by the sniffer: identity, priority and the
matching signature data. -/
structure FormatFeature where
  id : String
  name : String
  platform : String
  priority : Int
  extensions : List String
  signatures : Signatures

/-- Modelled from the spec: `ParsedMeta` (types.ts is missing from the
staged sources); index.ts reads exactly `name` and `platform` from it. -/
structure ParsedMeta where
  name : String
  platform : String
deriving Repr, DecidableEq

/-- Modelled from the spec: a normalized member record; only batch lengths
and concatenations matter to the claims. -/
structure ParsedMember where
  platformId : String
  name : String
deriving Repr, DecidableEq

/-- Modelled from the spec: a normalized message record. -/
structure ParsedMessage where
  sender : String
  timestamp : Int
  content : String
deriving Repr, DecidableEq

/-- Modelled from the spec: a progress report; the claims never inspect its
fields. -/
structure ParseProgress where
  stage : String
  percentage : Nat
deriving Repr, DecidableEq

/-- Event stream alphabet of the streaming parsers (`ParseEvent` in
types.ts, fields as read by index.ts); errors are modelled by their
message. -/
inductive ParseEvent where
  | meta (m : ParsedMeta)
  | members (ms : List ParsedMember)
  | messages (ms : List ParsedMessage)
  | progress (p : ParseProgress)
  | error (e : String)
deriving Repr, DecidableEq

/-- Observable inputs of a file: the `path.extname` result, readability
(whether `openSync`/`readSync` succeed), content and `statSync` size. -/
structure File where
  path : String
  extname : String
  readable : Bool
  content : List Char
  size : Nat

/-- A streaming parser paired with its feature: `parse` is the finite event
sequence the parser's generator yields for a file (parser implementations
live in the per-format modules, outside sniffer.ts). -/
structure Parser where
  feature : FormatFeature
  parse : File → List ParseEvent

/-- Format module: a feature paired with its parser (the optional
preprocessor is not involved in any claim and is omitted). -/
structure FormatModule where
  feature : FormatFeature
  parser : Parser

/-- Embeds `readFileHead`: open the file and read at most `size` units from
the start.  `fs.openSync` throws on an unopenable file; the exception is
modelled as the `Except.error` branch. -/
def readFileHead (f : File) (size : Nat := HEAD_SIZE) : Except String (List Char) :=
  if f.readable then Except.ok (f.content.take size)
  else Except.error ("ENOENT: no such file or directory, open " ++ f.path)

/-- Head window of a readable file (the `Except.ok` payload of
`readFileHead`). -/
def readHead (f : File) : List Char :=
  f.content.take HEAD_SIZE

/-- Model of `String.prototype.toLowerCase`, characterwise over the
modelled characters. -/
def jsToLower (s : String) : String :=
  { data := s.data.map Char.toLower }

/-- Embeds `getExtension`: the lowercased `path.extname` result. -/
def getExtension (f : File) : String :=
  jsToLower f.extname

/-- Embeds `matchHeadSignatures`: some declared pattern matches the head. -/
def matchHeadSignatures (headContent : List Char) (patterns : List Pattern) : Bool :=
  patterns.any (fun pattern => pattern headContent)

/-- Embeds `FormatSniffer.matchFeature`.  Each conjunct mirrors one early
`return false` of the source: extension membership; if head signatures are
declared and nonempty, one must match; if required fields are declared and
nonempty, all must be found; if field-value patterns are declared, every
pattern must match. -/
def matchFeature (feature : FormatFeature) (ext : String) (headContent : List Char) : Bool :=
  feature.extensions.contains ext &&
  (match feature.signatures.head with
   | some ps => ps.isEmpty || matchHeadSignatures headContent ps
   | none => true) &&
  (match feature.signatures.requiredFields with
   | some fs => fs.isEmpty || matchRequiredFields headContent fs
   | none => true) &&
  (match feature.signatures.fieldPatterns with
   | some ps => ps.all (fun pattern => pattern.2 headContent)
   | none => true)

/-- Per-format diagnostic record (`FormatMatchCheck` in types.ts, with the
fields checkFeatureDetail fills). -/
structure FormatMatchCheck where
  formatId : String
  formatName : String
  extensionMatch : Bool
  headSignatureMatch : Option Bool
  requiredFieldsMatch : Option Bool
  missingFields : List String
  fullMatch : Bool
deriving Repr, DecidableEq

/-- Embeds `FormatSniffer.checkFeatureDetail`: on an extension mismatch the
record is returned at once; otherwise the three signature checks fill the
optional fields and `fullMatch` combines them, a `null` check counting as
passed. -/
def checkFeatureDetail (feature : FormatFeature) (ext : String) (headContent : List Char) :
    FormatMatchCheck :=
  let extensionMatch := feature.extensions.contains ext
  if !extensionMatch then
    { formatId := feature.id, formatName := feature.name, extensionMatch := extensionMatch,
      headSignatureMatch := none, requiredFieldsMatch := none,
      missingFields := [], fullMatch := false }
  else
    let headSignatureMatch : Option Bool :=
      match feature.signatures.head with
      | some ps => if ps.isEmpty then none else some (matchHeadSignatures headContent ps)
      | none => none
    let requiredDetail : Option Bool × List String :=
      match feature.signatures.requiredFields with
      | some fs =>
          if fs.isEmpty then (none, []) else
            let r := checkRequiredFieldsDetail headContent fs
            (some r.allMatch, r.missing)
      | none => (none, [])
    let fieldPatternsMatch : Bool :=
      match feature.signatures.fieldPatterns with
      | some ps => ps.all (fun pattern => pattern.2 headContent)
      | none => true
    let fullMatch :=
      extensionMatch && headSignatureMatch.getD true && requiredDetail.1.getD true &&
        fieldPatternsMatch
    { formatId := feature.id, formatName := feature.name, extensionMatch := extensionMatch,
      headSignatureMatch := headSignatureMatch, requiredFieldsMatch := requiredDetail.1,
      missingFields := requiredDetail.2, fullMatch := fullMatch }

/-- JavaScript `String.prototype.trim` over the modelled characters. -/
def jsTrim (cs : List Char) : List Char :=
  ((cs.dropWhile isJsWs).reverse.dropWhile isJsWs).reverse

/-- First character test used by `generateSuggestion`'s JSON hint. -/
def startsWithChar (cs : List Char) (c : Char) : Bool :=
  match cs with
  | [] => false
  | d :: _ => d = c

/-- Embeds `FormatSniffer.generateSuggestion`. -/
def generateSuggestion (ext : String) (partialMatches : List FormatMatchCheck)
    (headContent : List Char) : String :=
  match partialMatches with
  | [] => "没有找到匹配扩展名 \"" ++ ext ++ "\" 的格式，请检查文件类型是否正确"
  | mostLikely :: _ =>
    let issues : List String :=
      (if mostLikely.headSignatureMatch = some false then ["文件头签名不匹配"] else []) ++
      (if mostLikely.missingFields.length > 0 then
        ["缺少必需字段: " ++ String.intercalate ", " mostLikely.missingFields]
      else [])
    if issues.length > 0 then
      "文件疑似 " ++ mostLikely.formatName ++ " 格式，但存在以下问题：" ++
        String.intercalate "；" issues
    else if ext = ".json" && !startsWithChar (jsTrim headContent) '\x7b' &&
        !startsWithChar (jsTrim headContent) '[' then
      "文件内容不是有效的 JSON 格式"
    else
      "扩展名匹配 " ++ mostLikely.formatName ++ " 格式，但内容结构不符合预期"

/-- Diagnosis record (`FormatDiagnosis` in types.ts, as diagnose fills
it). -/
structure FormatDiagnosis where
  recognized : Bool
  matchedFormat : Option FormatFeature
  checks : List FormatMatchCheck
  partialMatches : List FormatMatchCheck
  suggestion : String

/-- Registry state of the sniffer: the ordered `formats` array. -/
structure FormatSniffer where
  formats : List FormatModule

/-- Insertion step of a stable sort into a priority-ascending list: the
inserted module goes before the first element of greater-or-equal
priority.  Since `sortByPriority` inserts earlier list elements into the
already-sorted later ones, an earlier element is placed before any
equal-priority later one, so ties keep their original relative order. -/
def insertByPriority (m : FormatModule) : List FormatModule → List FormatModule
  | [] => [m]
  | x :: xs =>
      if m.feature.priority ≤ x.feature.priority then m :: x :: xs
      else x :: insertByPriority m xs

/-- Stable sort ascending by `feature.priority`: equal-priority modules
stay in their original array order, the behaviour of the source's
`sort((a, b) => a.feature.priority - b.feature.priority)` on JavaScript's
stable `Array.prototype.sort` (ES2019; the repository requires Node 20+). -/
def sortByPriority : List FormatModule → List FormatModule
  | [] => []
  | x :: xs => insertByPriority x (sortByPriority xs)

/-- Embeds `FormatSniffer.register`: push the module, then re-sort the
array ascending by priority. -/
def FormatSniffer.register (s : FormatSniffer) (m : FormatModule) : FormatSniffer :=
  { formats := sortByPriority (s.formats ++ [m]) }

/-- Embeds `FormatSniffer.registerAll`: register each module in turn. -/
def FormatSniffer.registerAll (s : FormatSniffer) (modules : List FormatModule) : FormatSniffer :=
  modules.foldl FormatSniffer.register s

/-- Scan loop of `sniff`: first feature whose module matches. -/
def sniffLoop (mods : List FormatModule) (ext : String) (headContent : List Char) :
    Option FormatFeature :=
  match mods with
  | [] => none
  | m :: rest =>
      if matchFeature m.feature ext headContent then some m.feature
      else sniffLoop rest ext headContent

/-- Embeds `FormatSniffer.sniff`: read extension and head window, scan the
registered modules in array order, return the first fully matching feature
or `null`; an exception from `readFileHead` propagates. -/
def FormatSniffer.sniff (s : FormatSniffer) (f : File) : Except String (Option FormatFeature) :=
  match readFileHead f with
  | Except.error e => Except.error e
  | Except.ok headContent => Except.ok (sniffLoop s.formats (getExtension f) headContent)

/-- Scan loop of `getParser`: first parser whose module matches. -/
def getParserLoop (mods : List FormatModule) (ext : String) (headContent : List Char) :
    Option Parser :=
  match mods with
  | [] => none
  | m :: rest =>
      if matchFeature m.feature ext headContent then some m.parser
      else getParserLoop rest ext headContent

/-- Embeds `FormatSniffer.getParser`: same scan as `sniff`, returning the
matching module's parser. -/
def FormatSniffer.getParser (s : FormatSniffer) (f : File) : Except String (Option Parser) :=
  match readFileHead f with
  | Except.error e => Except.error e
  | Except.ok headContent => Except.ok (getParserLoop s.formats (getExtension f) headContent)

/-- Body of diagnose's for-loop: accumulate every check, the partial
matches (extension matched but not full), and the first full match. -/
def diagnoseLoop (mods : List FormatModule) (ext : String) (headContent : List Char)
    (checks partialMatches : List FormatMatchCheck) (matched : Option FormatFeature) :
    List FormatMatchCheck × List FormatMatchCheck × Option FormatFeature :=
  match mods with
  | [] => (checks, partialMatches, matched)
  | m :: rest =>
      let check := checkFeatureDetail m.feature ext headContent
      if check.fullMatch && matched.isNone then
        diagnoseLoop rest ext headContent (checks ++ [check]) partialMatches (some m.feature)
      else if check.extensionMatch && !check.fullMatch then
        diagnoseLoop rest ext headContent (checks ++ [check]) (partialMatches ++ [check]) matched
      else
        diagnoseLoop rest ext headContent (checks ++ [check]) partialMatches matched

/-- Embeds `FormatSniffer.diagnose`: run the detailed check against every
registered module without short-circuiting, then synthesize the
suggestion; an exception from `readFileHead` propagates. -/
def FormatSniffer.diagnose (s : FormatSniffer) (f : File) : Except String FormatDiagnosis :=
  match readFileHead f with
  | Except.error e => Except.error e
  | Except.ok headContent =>
      let r := diagnoseLoop s.formats (getExtension f) headContent [] [] none
      Except.ok
        { recognized := r.2.2.isSome, matchedFormat := r.2.2, checks := r.1,
          partialMatches := r.2.1,
          suggestion := generateSuggestion (getExtension f) r.2.1 headContent }

/-- Embeds index.ts `detectFormat`.  The module-level sniffer instance is
populated from the format modules of `./formats`, which are outside the
staged sources; the registry is therefore a parameter. -/
def detectFormat (sniffer : FormatSniffer) (f : File) : Except String (Option FormatFeature) :=
  sniffer.sniff f

/-- Embeds index.ts `diagnoseFormat`. -/
def diagnoseFormat (sniffer : FormatSniffer) (f : File) : Except String FormatDiagnosis :=
  sniffer.diagnose f

/-- Embeds index.ts `parseFile`: select a parser via the sniffer; when none
matches, the stream is the single error event; otherwise the stream is the
parser's.  An exception thrown by the sniffer inside the generator is the
`Except.error` branch. -/
def parseFile (sniffer : FormatSniffer) (f : File) : Except String (List ParseEvent) :=
  match sniffer.getParser f with
  | Except.error e => Except.error e
  | Except.ok none => Except.ok [ParseEvent.error ("无法识别文件格式: " ++ f.path)]
  | Except.ok (some p) => Except.ok (p.parse f)

/-- Result record of `parseFileSync` (`ParseResult` in types.ts). -/
structure ParseResult where
  meta : ParsedMeta
  members : List ParsedMember
  messages : List ParsedMessage
deriving Repr, DecidableEq

/-- Collection loop of `parseFileSync`: thread the last meta and the
accumulated batches through the event sequence, throwing the data of the
first error event. -/
def parseFileSyncLoop : List ParseEvent → Option ParsedMeta → List ParsedMember →
    List ParsedMessage → Except String ParseResult
  | [], meta, members, messages =>
      match meta with
      | none => Except.error "解析失败：未获取到元信息"
      | some m => Except.ok { meta := m, members := members, messages := messages }
  | ParseEvent.meta m :: rest, _, members, messages =>
      parseFileSyncLoop rest (some m) members messages
  | ParseEvent.members ms :: rest, meta, members, messages =>
      parseFileSyncLoop rest meta (members ++ ms) messages
  | ParseEvent.messages ms :: rest, meta, members, messages =>
      parseFileSyncLoop rest meta members (messages ++ ms)
  | ParseEvent.progress _ :: rest, meta, members, messages =>
      parseFileSyncLoop rest meta members messages
  | ParseEvent.error e :: _, _, _, _ => Except.error e

/-- Embeds index.ts `parseFileSync`: collect the `parseFile` stream into a
full result, failing when no meta was ever produced. -/
def parseFileSync (sniffer : FormatSniffer) (f : File) : Except String ParseResult :=
  match parseFile sniffer f with
  | Except.error e => Except.error e
  | Except.ok evs => parseFileSyncLoop evs none [] []

/-- Result record of `parseFileInfo`. -/
structure ParseFileInfo where
  name : String
  format : String
  platform : String
  messageCount : Nat
  memberCount : Nat
  fileSize : Nat
deriving Repr, DecidableEq

/-- Counting loop of `parseFileInfo`: meta events overwrite name and
platform, batch events add their lengths, an error event throws. -/
def parseFileInfoLoop (feature : FormatFeature) (fileSize : Nat) :
    List ParseEvent → String → String → Nat → Nat → Except String ParseFileInfo
  | [], name, platform, messageCount, memberCount =>
      Except.ok
        { name := name, format := feature.name, platform := platform,
          messageCount := messageCount, memberCount := memberCount, fileSize := fileSize }
  | ParseEvent.meta m :: rest, _, _, messageCount, memberCount =>
      parseFileInfoLoop feature fileSize rest m.name m.platform messageCount memberCount
  | ParseEvent.members ms :: rest, name, platform, messageCount, memberCount =>
      parseFileInfoLoop feature fileSize rest name platform messageCount
        (memberCount + ms.length)
  | ParseEvent.messages ms :: rest, name, platform, messageCount, memberCount =>
      parseFileInfoLoop feature fileSize rest name platform (messageCount + ms.length)
        memberCount
  | ParseEvent.progress _ :: rest, name, platform, messageCount, memberCount =>
      parseFileInfoLoop feature fileSize rest name platform messageCount memberCount
  | ParseEvent.error e :: _, _, _, _, _ => Except.error e

/-- Embeds index.ts `parseFileInfo`: sniff first and throw on an
unrecognized format, then tally the `parseFile` stream starting from the
default name `未知群聊` and the sniffed feature's platform; the file size
is the `statSync` size. -/
def parseFileInfo (sniffer : FormatSniffer) (f : File) : Except String ParseFileInfo :=
  match sniffer.sniff f with
  | Except.error e => Except.error e
  | Except.ok none => Except.error ("无法识别文件格式: " ++ f.path)
  | Except.ok (some feature) =>
      match parseFile sniffer f with
      | Except.error e => Except.error e
      | Except.ok evs => parseFileInfoLoop feature f.size evs "未知群聊" feature.platform 0 0

/-- Meta payloads of an event sequence, in order. -/
def metasOf (evs : List ParseEvent) : List ParsedMeta :=
  evs.filterMap (fun e => match e with | ParseEvent.meta m => some m | _ => none)

/-- Member batches of an event sequence, in order. -/
def memberBatches (evs : List ParseEvent) : List (List ParsedMember) :=
  evs.filterMap (fun e => match e with | ParseEvent.members ms => some ms | _ => none)

/-- Message batches of an event sequence, in order. -/
def messageBatches (evs : List ParseEvent) : List (List ParsedMessage) :=
  evs.filterMap (fun e => match e with | ParseEvent.messages ms => some ms | _ => none)

/-- Data of the first error event of a sequence, if any. -/
def firstErrorOf (evs : List ParseEvent) : Option String :=
  evs.findSome? (fun e => match e with | ParseEvent.error s => some s | _ => none)

/-- Substring containment on strings, for reading suggestion texts. -/
def strContains (s sub : String) : Bool :=
  jsIncludes s.data sub.data

/-- Ascending-priority ordering of the registry array. -/
abbrev prioritySorted (mods : List FormatModule) : Prop :=
  List.Chain' (fun a b => a.feature.priority ≤ b.feature.priority) mods

/-! Helper lemmas. -/

theorem readFileHead_readable (f : File) (h : f.readable = true) :
    readFileHead f = Except.ok (readHead f) := by
  simp [readFileHead, readHead, h]

theorem sniff_readable (s : FormatSniffer) (f : File) (h : f.readable = true) :
    s.sniff f = Except.ok (sniffLoop s.formats (getExtension f) (readHead f)) := by
  rw [FormatSniffer.sniff, readFileHead_readable f h]

theorem getParser_readable (s : FormatSniffer) (f : File) (h : f.readable = true) :
    s.getParser f = Except.ok (getParserLoop s.formats (getExtension f) (readHead f)) := by
  rw [FormatSniffer.getParser, readFileHead_readable f h]

theorem sniffLoop_eq_find (mods : List FormatModule) (ext : String) (hc : List Char) :
    sniffLoop mods ext hc =
      (mods.find? (fun m => matchFeature m.feature ext hc)).map (fun m => m.feature) := by
  induction mods with
  | nil => rfl
  | cons m rest ih =>
    by_cases h : matchFeature m.feature ext hc
    · simp [sniffLoop, List.find?_cons_of_pos, h]
    · simp only [Bool.not_eq_true] at h
      simp [sniffLoop, List.find?_cons_of_neg, h, ih]

theorem getParserLoop_eq_find (mods : List FormatModule) (ext : String) (hc : List Char) :
    getParserLoop mods ext hc =
      (mods.find? (fun m => matchFeature m.feature ext hc)).map (fun m => m.parser) := by
  induction mods with
  | nil => rfl
  | cons m rest ih =>
    by_cases h : matchFeature m.feature ext hc
    · simp [getParserLoop, List.find?_cons_of_pos, h]
    · simp only [Bool.not_eq_true] at h
      simp [getParserLoop, List.find?_cons_of_neg, h, ih]

theorem length_filter_not_eq_all {α : Type} (p : α → Bool) (l : List α) :
    ((l.filter (fun a => !p a)).length == 0) = l.all p := by
  induction l with
  | nil => rfl
  | cons a l ih => cases hp : p a <;> simp [List.filter_cons, hp, ih]

theorem checkRequiredFieldsDetail_allMatch (hc : List Char) (fields : List String) :
    (checkRequiredFieldsDetail hc fields).allMatch = matchRequiredFields hc fields := by
  simp [checkRequiredFieldsDetail, matchRequiredFields, length_filter_not_eq_all]

theorem checkFeatureDetail_extensionMatch (feature : FormatFeature) (ext : String)
    (hc : List Char) :
    (checkFeatureDetail feature ext hc).extensionMatch = feature.extensions.contains ext := by
  unfold checkFeatureDetail
  by_cases h : ext ∈ feature.extensions <;> simp [h]

theorem checkFeatureDetail_fullMatch (feature : FormatFeature) (ext : String) (hc : List Char) :
    (checkFeatureDetail feature ext hc).fullMatch = matchFeature feature ext hc := by
  unfold checkFeatureDetail matchFeature
  by_cases hext : ext ∈ feature.extensions
  · rcases hh : feature.signatures.head with _ | ps <;>
      rcases hr : feature.signatures.requiredFields with _ | fs
    · simp [hext, hh, hr]
    · cases fs <;> simp [hext, hh, hr, checkRequiredFieldsDetail_allMatch]
    · cases ps <;> simp [hext, hh, hr]
    · cases ps <;> cases fs <;> simp [hext, hh, hr, checkRequiredFieldsDetail_allMatch]
  · simp [hext]

theorem diagnoseLoop_spec (mods : List FormatModule) (ext : String) (hc : List Char) :
    ∀ (checks partials : List FormatMatchCheck) (matched : Option FormatFeature),
    diagnoseLoop mods ext hc checks partials matched =
      (checks ++ mods.map (fun m => checkFeatureDetail m.feature ext hc),
       partials ++ (mods.map (fun m => checkFeatureDetail m.feature ext hc)).filter
         (fun c => c.extensionMatch && !c.fullMatch),
       match matched with
       | some x => some x
       | none =>
           (mods.find? (fun m => matchFeature m.feature ext hc)).map (fun m => m.feature)) := by
  induction mods with
  | nil =>
    intro checks partials matched
    cases matched <;> simp [diagnoseLoop]
  | cons m rest ih =>
    intro checks partials matched
    have hmf := (checkFeatureDetail_fullMatch m.feature ext hc).symm
    cases hcf : (checkFeatureDetail m.feature ext hc).fullMatch with
    | true =>
      rw [hcf] at hmf
      cases matched with
      | none =>
        simp only [diagnoseLoop, hcf, Option.isNone_none, Bool.and_true, if_pos]
        rw [ih]
        simp [List.filter_cons, hcf, List.find?_cons_of_pos, hmf.symm, List.append_assoc]
      | some x =>
        simp only [diagnoseLoop, hcf, Option.isNone_some, Bool.and_false, Bool.false_eq_true,
          if_false, Bool.not_true, Bool.and_false, if_false]
        rw [ih]
        simp [List.filter_cons, hcf, List.append_assoc]
    | false =>
      rw [hcf] at hmf
      cases hce : (checkFeatureDetail m.feature ext hc).extensionMatch with
      | true =>
        cases matched <;>
          · simp only [diagnoseLoop, hcf, hce, Bool.false_and, Bool.false_eq_true, if_false,
              Bool.not_false, Bool.and_true, if_pos]
            rw [ih]
            simp [List.filter_cons, hcf, hce, List.find?_cons_of_neg, hmf.symm,
              List.append_assoc]
      | false =>
        cases matched <;>
          · simp only [diagnoseLoop, hcf, hce, Bool.false_and, Bool.false_eq_true, if_false,
              Bool.not_false, Bool.and_true, if_false]
            rw [ih]
            simp [List.filter_cons, hcf, hce, List.find?_cons_of_neg, hmf.symm,
              List.append_assoc]

theorem insertByPriority_cases (m : FormatModule) (l : List FormatModule) :
    insertByPriority m l = m :: l ∨
      ∃ x xs, l = x :: xs ∧ insertByPriority m l = x :: insertByPriority m xs ∧
        x.feature.priority ≤ m.feature.priority := by
  cases l with
  | nil => left; rfl
  | cons x xs =>
    by_cases h : m.feature.priority ≤ x.feature.priority
    · left; simp [insertByPriority, h]
    · right
      exact ⟨x, xs, rfl, by simp [insertByPriority, h], le_of_lt (lt_of_not_le h)⟩

theorem insertByPriority_sorted (m : FormatModule) (l : List FormatModule)
    (h : prioritySorted l) : prioritySorted (insertByPriority m l) := by
  induction l with
  | nil => exact List.chain'_singleton m
  | cons x xs ih =>
    by_cases hx : m.feature.priority ≤ x.feature.priority
    · simp only [insertByPriority, hx, if_pos]
      exact List.chain'_cons.mpr ⟨hx, h⟩
    · simp only [insertByPriority, hx, if_neg, not_false_iff]
      refine List.chain'_cons'.mpr ⟨?_, ih (h.tail)⟩
      intro b hb
      rcases insertByPriority_cases m xs with hcase | ⟨y, ys, hxs, heq, _⟩
      · rw [hcase] at hb
        simp at hb
        subst hb
        exact le_of_lt (lt_of_not_le hx)
      · rw [heq] at hb
        simp at hb
        subst hb
        subst hxs
        exact (List.chain'_cons.mp h).1

theorem sortByPriority_sorted (l : List FormatModule) : prioritySorted (sortByPriority l) := by
  induction l with
  | nil => exact List.chain'_nil
  | cons x xs ih => exact insertByPriority_sorted x (sortByPriority xs) ih

theorem register_sorted (s : FormatSniffer) (m : FormatModule) :
    prioritySorted (s.register m).formats :=
  sortByPriority_sorted _

theorem registerAll_sorted (modules : List FormatModule) :
    ∀ s : FormatSniffer, prioritySorted s.formats →
      prioritySorted (s.registerAll modules).formats := by
  induction modules with
  | nil => intro s h; exact h
  | cons m rest ih =>
    intro s h
    exact ih (s.register m) (register_sorted s m)

theorem firstErrorOf_cons (e : ParseEvent) (rest : List ParseEvent) :
    firstErrorOf (e :: rest) =
      match e with
      | ParseEvent.error s => some s
      | _ => firstErrorOf rest := by
  cases e <;> simp [firstErrorOf]

theorem metasOf_cons (e : ParseEvent) (rest : List ParseEvent) :
    metasOf (e :: rest) =
      match e with
      | ParseEvent.meta m => m :: metasOf rest
      | _ => metasOf rest := by
  cases e <;> simp [metasOf]

theorem memberBatches_cons (e : ParseEvent) (rest : List ParseEvent) :
    memberBatches (e :: rest) =
      match e with
      | ParseEvent.members ms => ms :: memberBatches rest
      | _ => memberBatches rest := by
  cases e <;> simp [memberBatches]

theorem messageBatches_cons (e : ParseEvent) (rest : List ParseEvent) :
    messageBatches (e :: rest) =
      match e with
      | ParseEvent.messages ms => ms :: messageBatches rest
      | _ => messageBatches rest := by
  cases e <;> simp [messageBatches]

/-- Apply `f` to the last element of `L`, or return `d` when `L` is empty:
the folded shape of the accumulator variables that meta events overwrite. -/
def lastMetaApp {β : Type} (L : List ParsedMeta) (f : ParsedMeta → β) (d : β) : β :=
  match L.getLast? with
  | some x => f x
  | none => d

theorem lastMetaApp_cons {β : Type} (m : ParsedMeta) (L : List ParsedMeta)
    (f : ParsedMeta → β) (d : β) :
    lastMetaApp (m :: L) f d = lastMetaApp L f (f m) := by
  unfold lastMetaApp
  cases L with
  | nil => rfl
  | cons y ys =>
    rw [List.getLast?_cons_cons]
    have hs : (y :: ys).getLast?.isSome := by
      rw [List.getLast?_isSome]; simp
    rcases Option.isSome_iff_exists.mp hs with ⟨z, hz⟩
    rw [hz]

theorem parseFileSyncLoop_spec :
    ∀ (evs : List ParseEvent) (meta : Option ParsedMeta) (members : List ParsedMember)
      (messages : List ParsedMessage),
    parseFileSyncLoop evs meta members messages =
      match firstErrorOf evs with
      | some e => Except.error e
      | none =>
        match lastMetaApp (metasOf evs) some meta with
        | none => Except.error "解析失败：未获取到元信息"
        | some m =>
            Except.ok
              { meta := m, members := members ++ (memberBatches evs).flatten,
                messages := messages ++ (messageBatches evs).flatten } := by
  intro evs
  induction evs with
  | nil =>
    intro meta members messages
    cases meta <;>
      simp [parseFileSyncLoop, firstErrorOf, metasOf, memberBatches, messageBatches,
        lastMetaApp]
  | cons e rest ih =>
    intro meta members messages
    cases e <;>
      simp [parseFileSyncLoop, firstErrorOf_cons, metasOf_cons, memberBatches_cons,
        messageBatches_cons, lastMetaApp_cons, ih, List.append_assoc]

theorem parseFileInfoLoop_spec (feature : FormatFeature) (fileSize : Nat) :
    ∀ (evs : List ParseEvent) (name platform : String) (messageCount memberCount : Nat),
    parseFileInfoLoop feature fileSize evs name platform messageCount memberCount =
      match firstErrorOf evs with
      | some e => Except.error e
      | none =>
          Except.ok
            { name := lastMetaApp (metasOf evs) (fun x => x.name) name,
              format := feature.name,
              platform := lastMetaApp (metasOf evs) (fun x => x.platform) platform,
              messageCount := messageCount + ((messageBatches evs).map List.length).sum,
              memberCount := memberCount + ((memberBatches evs).map List.length).sum,
              fileSize := fileSize } := by
  intro evs
  induction evs with
  | nil =>
    intro name platform messageCount memberCount
    simp [parseFileInfoLoop, firstErrorOf, metasOf, memberBatches, messageBatches,
      lastMetaApp]
  | cons e rest ih =>
    intro name platform messageCount memberCount
    cases e <;>
      simp [parseFileInfoLoop, firstErrorOf_cons, metasOf_cons, memberBatches_cons,
        messageBatches_cons, lastMetaApp_cons, ih, Nat.add_assoc]

set_option maxHeartbeats 1000000 in
theorem matchFeature_iff (feature : FormatFeature) (ext : String) (hc : List Char) :
    matchFeature feature ext hc = true ↔
      (feature.extensions.contains ext = true ∧
       (∀ ps, feature.signatures.head = some ps → ps ≠ [] → ∃ p ∈ ps, p hc = true) ∧
       (∀ fs, feature.signatures.requiredFields = some fs → fs ≠ [] →
          ∀ fld ∈ fs, fieldFound hc fld = true) ∧
       (∀ ps, feature.signatures.fieldPatterns = some ps → ∀ p ∈ ps, p.2 hc = true)) := by
  unfold matchFeature
  rcases hh : feature.signatures.head with _ | ps <;>
    rcases hr : feature.signatures.requiredFields with _ | fs <;>
    rcases hp : feature.signatures.fieldPatterns with _ | qs
  · simp
  · simp [List.all_eq_true]
  · cases fs <;> simp [matchRequiredFields, List.all_eq_true, and_assoc]
  · cases fs <;> simp [matchRequiredFields, List.all_eq_true, and_assoc]
  · cases ps <;> simp [matchHeadSignatures, List.any_eq_true, and_assoc]
  · cases ps <;> simp [matchHeadSignatures, List.any_eq_true, List.all_eq_true, and_assoc]
  · cases ps <;> cases fs <;>
      simp [matchHeadSignatures, matchRequiredFields, List.any_eq_true, List.all_eq_true,
        and_assoc]
  · cases ps <;> cases fs <;>
      simp [matchHeadSignatures, matchRequiredFields, List.any_eq_true, List.all_eq_true,
        and_assoc]

theorem jsIncludes_of_infix (hay needle : List Char) (h : needle <:+: hay) :
    jsIncludes hay needle = true := by
  rcases h with ⟨p, q, rfl⟩
  rw [jsIncludes, List.any_eq_true]
  refine ⟨needle ++ q, ?_, ?_⟩
  · rw [List.mem_tails]
    exact ⟨p, by simp⟩
  · exact List.isPrefixOf_iff_prefix.mpr (List.prefix_append needle q)

/-! Concrete sample registry and files used by the witnesses. -/

/-- Sample JSON-array format: priority 2, requires the `messages` field. -/
def featJsonA : FormatFeature :=
  { id := "jsona", name := "Json A", platform := "qq", priority := 2,
    extensions := [".json"],
    signatures := { head := none, requiredFields := some ["messages"], fieldPatterns := none } }

/-- Sample JSONL format: priority 1, extension only. -/
def featJsonl : FormatFeature :=
  { id := "jsonl", name := "Jsonl B", platform := "wechat", priority := 1,
    extensions := [".jsonl"],
    signatures := { head := none, requiredFields := none, fieldPatterns := none } }

/-- Sample parser for `featJsonA`: one members batch and one messages
batch, no meta. -/
def parserJsonA : Parser :=
  { feature := featJsonA,
    parse := fun _ =>
      [ParseEvent.members [{ platformId := "u1", name := "Ann" }],
       ParseEvent.messages
         [{ sender := "u1", timestamp := 1, content := "hi" },
          { sender := "u1", timestamp := 2, content := "yo" }]] }

/-- Sample parser for `featJsonl`: empty stream. -/
def parserJsonl : Parser :=
  { feature := featJsonl, parse := fun _ => [] }

/-- Sample module for the JSON-array format. -/
def modJsonA : FormatModule :=
  { feature := featJsonA, parser := parserJsonA }

/-- Sample module for the JSONL format. -/
def modJsonl : FormatModule :=
  { feature := featJsonl, parser := parserJsonl }

/-- Second JSON format with the same priority 2 as `featJsonA`, also
matching `.json` files with no further signature checks: a priority tie. -/
def featJsonATie : FormatFeature :=
  { id := "jsona2", name := "Json A2", platform := "qq", priority := 2,
    extensions := [".json"],
    signatures := { head := none, requiredFields := none, fieldPatterns := none } }

/-- Sample module for `featJsonATie`. -/
def modJsonATie : FormatModule :=
  { feature := featJsonATie, parser := { feature := featJsonATie, parse := fun _ => [] } }

/-- Sample registry, already in ascending priority order. -/
def sampleSniffer : FormatSniffer :=
  FormatSniffer.mk [modJsonl, modJsonA]

/-- Readable sample file matching `featJsonA` (upper-case extension). -/
def sampleFile : File :=
  { path := "chat.json", extname := ".JSON", readable := true,
    content := "\x7b\"messages\": []\x7d".data, size := 17 }

/-- Readable sample file whose extension no sample format accepts. -/
def txtFile : File :=
  { path := "notes.txt", extname := ".txt", readable := true,
    content := "hello world".data, size := 11 }

/-- File that cannot be opened. -/
def missingFile : File :=
  { path := "missing.json", extname := ".json", readable := false,
    content := [], size := 0 }

/-- Registry with no formats registered. -/
def emptySniffer : FormatSniffer :=
  FormatSniffer.mk []

/-! Claim theorems. -/

/-- C1: for every readable file, `sniff` lowercases the file's extension,
reads the bounded head window, and returns the feature of the first module
of the priority-ascending registry that passes all four checks, returning
null when none does; `matchFeature` is exactly the conjunction of the four
checks of the claim, each short-circuiting the scan of its module. -/
theorem c1_sniff_scans_by_priority (ms : List FormatModule) (f : File)
    (h : f.readable = true) :
    prioritySorted ((FormatSniffer.mk []).registerAll ms).formats ∧
    getExtension f = jsToLower f.extname ∧
    readHead f = f.content.take HEAD_SIZE ∧
    ((FormatSniffer.mk []).registerAll ms).sniff f =
      Except.ok
        ((((FormatSniffer.mk []).registerAll ms).formats.find?
            (fun m => matchFeature m.feature (getExtension f) (readHead f))).map
          (fun m => m.feature)) ∧
    (∀ feature ext hc, matchFeature feature ext hc = true ↔
      (feature.extensions.contains ext = true ∧
       (∀ ps, feature.signatures.head = some ps → ps ≠ [] → ∃ p ∈ ps, p hc = true) ∧
       (∀ fs, feature.signatures.requiredFields = some fs → fs ≠ [] →
          ∀ fld ∈ fs, fieldFound hc fld = true) ∧
       (∀ ps, feature.signatures.fieldPatterns = some ps → ∀ p ∈ ps, p.2 hc = true))) := by
  refine ⟨registerAll_sorted ms _ List.chain'_nil, rfl, rfl, ?_, matchFeature_iff⟩
  rw [sniff_readable _ f h, sniffLoop_eq_find]

/-- Witness for C1 at a registry with a priority tie: registering the
modules out of order sorts them ascending by priority while the two
priority-2 modules keep their registration order (the stable-sort
behaviour of the source), and `sniff` returns the first registered of the
two tied matching formats. -/
theorem c1_sniff_scans_by_priority_witness :
    sampleFile.readable = true ∧
    ((FormatSniffer.mk []).registerAll [modJsonA, modJsonATie, modJsonl]).formats
      = [modJsonl, modJsonA, modJsonATie] ∧
    ((FormatSniffer.mk []).registerAll [modJsonA, modJsonATie, modJsonl]).sniff sampleFile =
      Except.ok (some featJsonA) ∧
    ((FormatSniffer.mk []).registerAll [modJsonA, modJsonATie, modJsonl]).sniff sampleFile =
      Except.ok
        ((((FormatSniffer.mk []).registerAll [modJsonA, modJsonATie, modJsonl]).formats.find?
            (fun m => matchFeature m.feature (getExtension sampleFile) (readHead sampleFile))).map
          (fun m => m.feature)) :=
  ⟨rfl, rfl, rfl,
    (c1_sniff_scans_by_priority [modJsonA, modJsonATie, modJsonl] sampleFile rfl).2.2.2.1⟩

/-- C2, counterexample: on a file that cannot be opened `sniff` and
`getParser` do not return null — the `openSync` exception propagates out of
them (here with an empty registry, so no format matches either). -/
theorem c2_counterexample_unreadable_throws :
    emptySniffer.sniff missingFile =
        Except.error "ENOENT: no such file or directory, open missing.json" ∧
    emptySniffer.getParser missingFile =
        Except.error "ENOENT: no such file or directory, open missing.json" ∧
    emptySniffer.sniff missingFile ≠ Except.ok none ∧
    emptySniffer.getParser missingFile ≠ Except.ok none := by
  refine ⟨rfl, rfl, fun h => ?_, fun h => ?_⟩
  · simp [emptySniffer, missingFile, FormatSniffer.sniff, readFileHead] at h
  · simp [emptySniffer, missingFile, FormatSniffer.getParser, readFileHead] at h

/-- C2, amended: for every registry state and every file that can be opened
and read, `sniff` and `getParser` never throw — they return `Except.ok`,
and when no registered format matches they return null; on an unreadable
file the underlying I/O exception propagates instead. -/
theorem c2_sniff_getParser_no_throw (s : FormatSniffer) (f : File) (h : f.readable = true) :
    (∃ r, s.sniff f = Except.ok r) ∧
    (∃ p, s.getParser f = Except.ok p) ∧
    ((∀ m ∈ s.formats, matchFeature m.feature (getExtension f) (readHead f) = false) →
      s.sniff f = Except.ok none ∧ s.getParser f = Except.ok none) := by
  refine ⟨⟨_, sniff_readable s f h⟩, ⟨_, getParser_readable s f h⟩, ?_⟩
  intro hnone
  rw [sniff_readable s f h, getParser_readable s f h, sniffLoop_eq_find, getParserLoop_eq_find]
  have hfind : s.formats.find? (fun m => matchFeature m.feature (getExtension f) (readHead f))
      = none := by
    rw [List.find?_eq_none]
    intro m hm
    simp [hnone m hm]
  rw [hfind]
  exact ⟨rfl, rfl⟩

/-- Witness for the amended C2: the sample registry on a readable `.txt`
file matches nothing and both lookups return null without throwing. -/
theorem c2_sniff_getParser_no_throw_witness :
    txtFile.readable = true ∧
    ((∃ r, sampleSniffer.sniff txtFile = Except.ok r) ∧
     (∃ p, sampleSniffer.getParser txtFile = Except.ok p) ∧
     ((∀ m ∈ sampleSniffer.formats,
        matchFeature m.feature (getExtension txtFile) (readHead txtFile) = false) →
       sampleSniffer.sniff txtFile = Except.ok none ∧
       sampleSniffer.getParser txtFile = Except.ok none)) :=
  ⟨rfl, c2_sniff_getParser_no_throw sampleSniffer txtFile rfl⟩

theorem diagnose_readable (s : FormatSniffer) (f : File) (h : f.readable = true) :
    s.diagnose f = Except.ok
      { recognized := (diagnoseLoop s.formats (getExtension f) (readHead f) [] [] none).2.2.isSome,
        matchedFormat := (diagnoseLoop s.formats (getExtension f) (readHead f) [] [] none).2.2,
        checks := (diagnoseLoop s.formats (getExtension f) (readHead f) [] [] none).1,
        partialMatches := (diagnoseLoop s.formats (getExtension f) (readHead f) [] [] none).2.1,
        suggestion := generateSuggestion (getExtension f)
          (diagnoseLoop s.formats (getExtension f) (readHead f) [] [] none).2.1 (readHead f) } := by
  rw [FormatSniffer.diagnose, readFileHead_readable f h]

/-- C3: for every readable file and registry state, `diagnose` agrees with
`sniff` — `recognized` holds exactly when `sniff` returns a feature,
`matchedFormat` is that same result, one `FormatMatchCheck` is recorded per
registered module with no short-circuiting across modules, and
`partialMatches` is exactly the checks with a matching extension but no
full match. -/
theorem c3_diagnose_agrees_with_sniff (s : FormatSniffer) (f : File) (h : f.readable = true) :
    ∃ d r, s.diagnose f = Except.ok d ∧ s.sniff f = Except.ok r ∧
      d.recognized = r.isSome ∧
      d.matchedFormat = r ∧
      d.checks = s.formats.map
        (fun m => checkFeatureDetail m.feature (getExtension f) (readHead f)) ∧
      d.partialMatches = d.checks.filter (fun c => c.extensionMatch && !c.fullMatch) := by
  refine ⟨_, _, diagnose_readable s f h, sniff_readable s f h, ?_, ?_, ?_, ?_⟩ <;>
    simp only [diagnoseLoop_spec, sniffLoop_eq_find, List.nil_append]

/-- Witness for C3 at the sample registry and the sample file. -/
theorem c3_diagnose_agrees_with_sniff_witness :
    sampleFile.readable = true ∧
    (∃ d r, sampleSniffer.diagnose sampleFile = Except.ok d ∧
      sampleSniffer.sniff sampleFile = Except.ok r ∧
      d.recognized = r.isSome ∧
      d.matchedFormat = r ∧
      d.checks = sampleSniffer.formats.map
        (fun m => checkFeatureDetail m.feature (getExtension sampleFile) (readHead sampleFile)) ∧
      d.partialMatches = d.checks.filter (fun c => c.extensionMatch && !c.fullMatch)) :=
  ⟨rfl, c3_diagnose_agrees_with_sniff sampleSniffer sampleFile rfl⟩

/-- C4: for every readable file whose lowercased extension belongs to no
registered format's extension list, `detectFormat` returns null and
`diagnose` reports no partial matches with a suggestion containing that
extension. -/
theorem c4_unsupported_extension (s : FormatSniffer) (f : File) (h : f.readable = true)
    (hext : ∀ m ∈ s.formats, m.feature.extensions.contains (getExtension f) = false) :
    detectFormat s f = Except.ok none ∧
    ∃ d, diagnoseFormat s f = Except.ok d ∧ d.partialMatches = [] ∧
      strContains d.suggestion (getExtension f) = true := by
  have hmf : ∀ m ∈ s.formats,
      matchFeature m.feature (getExtension f) (readHead f) = false := by
    intro m hm
    unfold matchFeature
    rw [hext m hm]
    simp
  have hfind : s.formats.find?
      (fun m => matchFeature m.feature (getExtension f) (readHead f)) = none := by
    rw [List.find?_eq_none]
    intro m hm
    simp [hmf m hm]
  have hfilter : ∀ partials : List FormatMatchCheck,
      partials = (s.formats.map
          (fun m => checkFeatureDetail m.feature (getExtension f) (readHead f))).filter
        (fun c => c.extensionMatch && !c.fullMatch) → partials = [] := by
    intro partials hp
    rw [hp, List.filter_eq_nil_iff]
    intro c hc
    rcases List.mem_map.mp hc with ⟨m, hm, rfl⟩
    have hnm : ¬ (getExtension f ∈ m.feature.extensions) := by
      simpa using hext m hm
    simp [checkFeatureDetail_extensionMatch, hnm]
  constructor
  · rw [detectFormat, sniff_readable s f h, sniffLoop_eq_find, hfind]
    rfl
  · rw [diagnoseFormat, diagnose_readable s f h]
    have hpart : (diagnoseLoop s.formats (getExtension f) (readHead f) [] [] none).2.1 = [] := by
      apply hfilter
      simp only [diagnoseLoop_spec, List.nil_append]
    refine ⟨_, rfl, hpart, ?_⟩
    rw [hpart, generateSuggestion]
    rw [strContains]
    apply jsIncludes_of_infix
    refine ⟨"没有找到匹配扩展名 \"".data, "\" 的格式，请检查文件类型是否正确".data, ?_⟩
    simp [String.data_append]

/-- Witness for C4: the sample registry on a readable `.txt` file. -/
theorem c4_unsupported_extension_witness :
    txtFile.readable = true ∧
    (∀ m ∈ sampleSniffer.formats,
      m.feature.extensions.contains (getExtension txtFile) = false) ∧
    (detectFormat sampleSniffer txtFile = Except.ok none ∧
     ∃ d, diagnoseFormat sampleSniffer txtFile = Except.ok d ∧ d.partialMatches = [] ∧
       strContains d.suggestion (getExtension txtFile) = true) :=
  ⟨rfl, by decide,
    c4_unsupported_extension sampleSniffer txtFile rfl (by decide)⟩

/-- Sample format with two required fields, for the C5 scenario. -/
def featJson2 : FormatFeature :=
  { id := "json2", name := "Json 2", platform := "discord", priority := 3,
    extensions := [".json"],
    signatures :=
      { head := none, requiredFields := some ["messages", "members"],
        fieldPatterns := none } }

/-- Sample module for `featJson2`. -/
def modJson2 : FormatModule :=
  { feature := featJson2, parser := { feature := featJson2, parse := fun _ => [] } }

/-- C5: for a readable `.json` file whose extension matches the one
registered format, which declares two required fields of which exactly the
first is discoverable in the head window, `diagnose` reports exactly one
partial match whose `missingFields` is exactly the undiscoverable field. -/
theorem c5_missing_second_field (m : FormatModule) (f : File) (A B : String)
    (h : f.readable = true)
    (hjson : getExtension f = ".json")
    (hreq : m.feature.signatures.requiredFields = some [A, B])
    (hm : m.feature.extensions.contains (getExtension f) = true)
    (hA : fieldFound (readHead f) A = true)
    (hB : fieldFound (readHead f) B = false) :
    ∃ d, (FormatSniffer.mk [m]).diagnose f = Except.ok d ∧
      d.partialMatches.length = 1 ∧
      d.partialMatches.map (fun c => c.missingFields) = [[B]] := by
  have hm' : getExtension f ∈ m.feature.extensions := by simpa using hm
  have hcm : (checkFeatureDetail m.feature (getExtension f) (readHead f)).missingFields
      = [B] := by
    simp [checkFeatureDetail, hm', hreq, checkRequiredFieldsDetail, List.filter_cons, hA, hB]
  have hfull : (checkFeatureDetail m.feature (getExtension f) (readHead f)).fullMatch
      = false := by
    rw [checkFeatureDetail_fullMatch]
    unfold matchFeature
    rw [hreq]
    simp [matchRequiredFields, hA, hB]
  have hextm : (checkFeatureDetail m.feature (getExtension f) (readHead f)).extensionMatch
      = true := by
    rw [checkFeatureDetail_extensionMatch]; exact hm
  refine ⟨_, diagnose_readable (FormatSniffer.mk [m]) f h, ?_, ?_⟩ <;>
    simp [diagnoseLoop_spec, List.filter_cons, hextm, hfull, hcm]

/-- Witness for C5: `featJson2` requires `messages` and `members`; the
sample file's head contains only `messages`. -/
theorem c5_missing_second_field_witness :
    sampleFile.readable = true ∧
    getExtension sampleFile = ".json" ∧
    modJson2.feature.signatures.requiredFields = some ["messages", "members"] ∧
    modJson2.feature.extensions.contains (getExtension sampleFile) = true ∧
    fieldFound (readHead sampleFile) "messages" = true ∧
    fieldFound (readHead sampleFile) "members" = false ∧
    (∃ d, (FormatSniffer.mk [modJson2]).diagnose sampleFile = Except.ok d ∧
      d.partialMatches.length = 1 ∧
      d.partialMatches.map (fun c => c.missingFields) = [["members"]]) :=
  ⟨rfl, by decide, rfl, by decide, by decide, by decide,
    c5_missing_second_field modJson2 sampleFile "messages" "members" rfl (by decide) rfl
      (by decide) (by decide) (by decide)⟩

theorem parseFile_readable (s : FormatSniffer) (f : File) (h : f.readable = true) :
    ∃ evs, parseFile s f = Except.ok evs := by
  rw [parseFile, getParser_readable s f h]
  cases getParserLoop s.formats (getExtension f) (readHead f) <;> exact ⟨_, rfl⟩

/-- C6: for every readable file, `parseFileSync` collects the `parseFile`
stream: with no meta and no error event it fails with the no-meta error;
with a meta and no error event it returns the last meta and the
concatenations, in emission order, of all members and messages batches;
with an error event it fails with exactly that error's data. -/
theorem c6_parseFileSync_collects (s : FormatSniffer) (f : File) (h : f.readable = true) :
    ∃ evs, parseFile s f = Except.ok evs ∧
      ((firstErrorOf evs = none ∧ metasOf evs = []) →
        parseFileSync s f = Except.error "解析失败：未获取到元信息") ∧
      (∀ m, firstErrorOf evs = none → (metasOf evs).getLast? = some m →
        parseFileSync s f = Except.ok
          { meta := m, members := (memberBatches evs).flatten,
            messages := (messageBatches evs).flatten }) ∧
      (∀ e, firstErrorOf evs = some e → parseFileSync s f = Except.error e) := by
  rcases parseFile_readable s f h with ⟨evs, hevs⟩
  have hsync : parseFileSync s f = parseFileSyncLoop evs none [] [] := by
    rw [parseFileSync, hevs]
  refine ⟨evs, hevs, ?_, ?_, ?_⟩
  · rintro ⟨he, hm⟩
    rw [hsync, parseFileSyncLoop_spec, he, hm]
    simp [lastMetaApp]
  · intro m he hm
    rw [hsync, parseFileSyncLoop_spec, he]
    simp [lastMetaApp, hm]
  · intro e he
    rw [hsync, parseFileSyncLoop_spec, he]

/-- Witness for C6: the sample registry's parser for the sample file emits
one members batch and one messages batch and no meta, so `parseFileSync`
fails with the no-meta error there. -/
theorem c6_parseFileSync_collects_witness :
    sampleFile.readable = true ∧
    (∃ evs, parseFile sampleSniffer sampleFile = Except.ok evs ∧
      ((firstErrorOf evs = none ∧ metasOf evs = []) →
        parseFileSync sampleSniffer sampleFile = Except.error "解析失败：未获取到元信息") ∧
      (∀ m, firstErrorOf evs = none → (metasOf evs).getLast? = some m →
        parseFileSync sampleSniffer sampleFile = Except.ok
          { meta := m, members := (memberBatches evs).flatten,
            messages := (messageBatches evs).flatten }) ∧
      (∀ e, firstErrorOf evs = some e →
        parseFileSync sampleSniffer sampleFile = Except.error e)) :=
  ⟨rfl, c6_parseFileSync_collects sampleSniffer sampleFile rfl⟩

/-- C7: for every readable file that no registered module matches,
`parseFile` yields exactly one event, the unrecognized-format error, and
the sequence ends there — no event follows it. -/
theorem c7_unrecognized_single_error (s : FormatSniffer) (f : File) (h : f.readable = true)
    (hnm : ∀ m ∈ s.formats, matchFeature m.feature (getExtension f) (readHead f) = false) :
    parseFile s f = Except.ok [ParseEvent.error ("无法识别文件格式: " ++ f.path)] := by
  rw [parseFile, getParser_readable s f h, getParserLoop_eq_find]
  have hfind : s.formats.find?
      (fun m => matchFeature m.feature (getExtension f) (readHead f)) = none := by
    rw [List.find?_eq_none]
    intro m hm
    simp [hnm m hm]
  rw [hfind]
  rfl

/-- Witness for C7: the sample registry on the `.txt` file. -/
theorem c7_unrecognized_single_error_witness :
    txtFile.readable = true ∧
    (∀ m ∈ sampleSniffer.formats,
      matchFeature m.feature (getExtension txtFile) (readHead txtFile) = false) ∧
    parseFile sampleSniffer txtFile =
      Except.ok [ParseEvent.error ("无法识别文件格式: " ++ txtFile.path)] :=
  ⟨rfl, by decide, c7_unrecognized_single_error sampleSniffer txtFile rfl (by decide)⟩

/-- Shared long head content: a JSON prefix padded past the head window. -/
def headBase : List Char :=
  "\x7b\"messages\": []\x7d".data ++ List.replicate HEAD_SIZE 'x'

/-- Long sample file: `headBase` followed by one tail. -/
def sampleFileLong : File :=
  { path := "other/dir/copy.json", extname := ".JSON", readable := true,
    content := headBase ++ "tail-one".data, size := 10000 }

/-- Second long sample file: same `headBase`, different tail, size and
path. -/
def sampleFileLong2 : File :=
  { path := "copy2.json", extname := ".JSON", readable := true,
    content := headBase ++ "a completely different and longer tail".data, size := 987654 }

theorem headBase_take (t : List Char) :
    (headBase ++ t).take HEAD_SIZE = headBase.take HEAD_SIZE := by
  apply List.take_append_of_le_length
  rw [headBase, List.length_append, List.length_replicate]
  exact Nat.le_add_left _ _

/-- C8: format detection reads only the extension and the first `HEAD_SIZE`
units of content — two readable files agreeing on those two observations
get the same `sniff` feature, the same `getParser` parser and equal
`diagnose` results, whatever their sizes, paths, or later content. -/
theorem c8_detection_head_window_only (s : FormatSniffer) (f1 f2 : File)
    (h1 : f1.readable = true) (h2 : f2.readable = true)
    (he : f1.extname = f2.extname)
    (hc : f1.content.take HEAD_SIZE = f2.content.take HEAD_SIZE) :
    s.sniff f1 = s.sniff f2 ∧
    s.getParser f1 = s.getParser f2 ∧
    s.diagnose f1 = s.diagnose f2 := by
  have hgx : getExtension f1 = getExtension f2 := by
    rw [getExtension, getExtension, he]
  have hh : readHead f1 = readHead f2 := by
    rw [readHead, readHead, hc]
  refine ⟨?_, ?_, ?_⟩
  · rw [sniff_readable s f1 h1, sniff_readable s f2 h2, hgx, hh]
  · rw [getParser_readable s f1 h1, getParser_readable s f2 h2, hgx, hh]
  · rw [diagnose_readable s f1 h1, diagnose_readable s f2 h2, hgx, hh]

/-- Witness for C8: the two long sample files share extension and head
window but differ in tail, size and path, and detection agrees on them. -/
theorem c8_detection_head_window_only_witness :
    sampleFileLong.readable = true ∧ sampleFileLong2.readable = true ∧
    sampleFileLong.extname = sampleFileLong2.extname ∧
    sampleFileLong.content.take HEAD_SIZE = sampleFileLong2.content.take HEAD_SIZE ∧
    (sampleSniffer.sniff sampleFileLong = sampleSniffer.sniff sampleFileLong2 ∧
     sampleSniffer.getParser sampleFileLong = sampleSniffer.getParser sampleFileLong2 ∧
     sampleSniffer.diagnose sampleFileLong = sampleSniffer.diagnose sampleFileLong2) := by
  have htake : sampleFileLong.content.take HEAD_SIZE
      = sampleFileLong2.content.take HEAD_SIZE := by
    rw [show sampleFileLong.content = headBase ++ "tail-one".data from rfl,
      show sampleFileLong2.content
        = headBase ++ "a completely different and longer tail".data from rfl,
      headBase_take, headBase_take]
  exact ⟨rfl, rfl, rfl, htake,
    c8_detection_head_window_only sampleSniffer sampleFileLong sampleFileLong2 rfl rfl rfl
      htake⟩

/-- C9: diagnosis is deterministic and repeatable — two calls on the same
registry for a file whose extension and head-window observations are
unchanged produce equal `FormatDiagnosis` records; the registry is passed
unchanged to both calls, and `diagnose` takes no registry mutation path. -/
theorem c9_diagnose_repeatable (s : FormatSniffer) (f1 f2 : File)
    (h1 : f1.readable = true) (h2 : f2.readable = true)
    (he : f1.extname = f2.extname)
    (hc : f1.content.take HEAD_SIZE = f2.content.take HEAD_SIZE) :
    s.diagnose f1 = s.diagnose f2 := by
  have hgx : getExtension f1 = getExtension f2 := by
    rw [getExtension, getExtension, he]
  have hh : readHead f1 = readHead f2 := by
    rw [readHead, readHead, hc]
  rw [diagnose_readable s f1 h1, diagnose_readable s f2 h2, hgx, hh]

/-- Witness for C9: two observations of the same unchanged sample file. -/
theorem c9_diagnose_repeatable_witness :
    sampleFile.readable = true ∧
    sampleFile.extname = sampleFile.extname ∧
    sampleFile.content.take HEAD_SIZE = sampleFile.content.take HEAD_SIZE ∧
    sampleSniffer.diagnose sampleFile = sampleSniffer.diagnose sampleFile :=
  ⟨rfl, rfl, rfl,
    c9_diagnose_repeatable sampleSniffer sampleFile sampleFile rfl rfl rfl rfl⟩

/-- C10: for every readable file, when a format is recognized and the event
stream ends with no meta event and no error event, `parseFileInfo` returns
the default name `未知群聊`, the sniffed feature's platform and the sums of
the batch lengths; and it fails exactly when no format is recognized or an
error event is produced. -/
theorem c10_parseFileInfo_defaults (s : FormatSniffer) (f : File) (h : f.readable = true) :
    (∀ feat evs, s.sniff f = Except.ok (some feat) → parseFile s f = Except.ok evs →
        metasOf evs = [] → firstErrorOf evs = none →
        parseFileInfo s f = Except.ok
          { name := "未知群聊", format := feat.name, platform := feat.platform,
            messageCount := ((messageBatches evs).map List.length).sum,
            memberCount := ((memberBatches evs).map List.length).sum,
            fileSize := f.size }) ∧
    ((∃ e, parseFileInfo s f = Except.error e) ↔
      (s.sniff f = Except.ok none ∨
        ∃ evs e, parseFile s f = Except.ok evs ∧ firstErrorOf evs = some e)) := by
  constructor
  · intro feat evs hs hp hm he
    have hinfo : parseFileInfo s f
        = parseFileInfoLoop feat f.size evs "未知群聊" feat.platform 0 0 := by
      simp only [parseFileInfo, hs, hp]
    rw [hinfo, parseFileInfoLoop_spec, he]
    simp [hm, lastMetaApp]
  · rcases hr : sniffLoop s.formats (getExtension f) (readHead f) with _ | feat
    · have hs : s.sniff f = Except.ok none := by rw [sniff_readable s f h, hr]
      have hinfo : parseFileInfo s f = Except.error ("无法识别文件格式: " ++ f.path) := by
        simp only [parseFileInfo, hs]
      constructor
      · intro; exact Or.inl hs
      · intro; exact ⟨_, hinfo⟩
    · have hs : s.sniff f = Except.ok (some feat) := by rw [sniff_readable s f h, hr]
      have hfe := sniffLoop_eq_find s.formats (getExtension f) (readHead f)
      rw [hr] at hfe
      rcases hf : s.formats.find?
          (fun m => matchFeature m.feature (getExtension f) (readHead f)) with _ | md
      · rw [hf] at hfe; exact absurd hfe (by simp)
      · rw [hf] at hfe
        have hmd : md.feature = feat := by
          simpa using hfe.symm
        have hp : parseFile s f = Except.ok (md.parser.parse f) := by
          rw [parseFile, getParser_readable s f h, getParserLoop_eq_find, hf]
          rfl
        have hinfo : parseFileInfo s f
            = parseFileInfoLoop feat f.size (md.parser.parse f) "未知群聊" feat.platform 0 0 := by
          simp only [parseFileInfo, hs, hp]
        rw [hinfo, parseFileInfoLoop_spec]
        rcases he : firstErrorOf (md.parser.parse f) with _ | e
        · constructor
          · rintro ⟨e, hee⟩
            exact absurd hee (by simp)
          · rintro (hnone | ⟨evs', e, hpe, hee⟩)
            · rw [hs] at hnone
              exact absurd hnone (by simp)
            · rw [hp] at hpe
              have hevs : evs' = md.parser.parse f := by
                simpa using hpe.symm
              rw [hevs, he] at hee
              exact absurd hee (by simp)
        · constructor
          · intro
            exact Or.inr ⟨md.parser.parse f, e, hp, he⟩
          · intro
            exact ⟨e, rfl⟩

/-- Witness for C10: the sample registry recognizes the sample file and its
parser emits one members batch of 1 and one messages batch of 2 with no
meta, so `parseFileInfo` returns the default name and the counts 2 and 1. -/
theorem c10_parseFileInfo_defaults_witness :
    sampleFile.readable = true ∧
    ((∀ feat evs, sampleSniffer.sniff sampleFile = Except.ok (some feat) →
        parseFile sampleSniffer sampleFile = Except.ok evs →
        metasOf evs = [] → firstErrorOf evs = none →
        parseFileInfo sampleSniffer sampleFile = Except.ok
          { name := "未知群聊", format := feat.name, platform := feat.platform,
            messageCount := ((messageBatches evs).map List.length).sum,
            memberCount := ((memberBatches evs).map List.length).sum,
            fileSize := sampleFile.size }) ∧
     ((∃ e, parseFileInfo sampleSniffer sampleFile = Except.error e) ↔
       (sampleSniffer.sniff sampleFile = Except.ok none ∨
         ∃ evs e, parseFile sampleSniffer sampleFile = Except.ok evs ∧
           firstErrorOf evs = some e))) ∧
    parseFileInfo sampleSniffer sampleFile = Except.ok
      { name := "未知群聊", format := "Json A", platform := "qq",
        messageCount := 2, memberCount := 1, fileSize := 17 } :=
  ⟨rfl, c10_parseFileInfo_defaults sampleSniffer sampleFile rfl, rfl⟩

end ChatLab

